import Mathlib

/-!
Verification development for the SQL dependency analysis engine of the
SqlTranslator repository (src/sql_converter/dependency_analyzer.py).

The Python code is shallowly embedded below.  Python dictionaries are
embedded as insertion-ordered association lists (Python dicts preserve
insertion order), Python sets as insertion-ordered duplicate-free lists
(operations mirror the source; set iteration order, which CPython leaves
unspecified for strings, only influences the relative order of standalone
nodes appended to the dependency graph, and every concrete input used here
has at most one such node).  The sqlglot library is an external dependency
of the repository; following the specification it is treated as an oracle
with operations parse, find_all(Table), find_all(CTE), isinstance(Create)
and str(), captured by the structures TableRef, SqlExpr and Sqlglot.
-/

namespace SqlDep

/-- Whitespace characters of the Python regex class used by the source. -/
def pySpace (c : Char) : Bool :=
  c = ' ' ∨ c = '\t' ∨ c = '\n' ∨ c = '\r' ∨ c = '\x0b' ∨ c = '\x0c'

/-- Drop leading Python whitespace from a character list. -/
def dropPySpaces : List Char → List Char
  | [] => []
  | c :: rest => if pySpace c then dropPySpaces rest else c :: rest

/-- Python str.strip applied to a character list. -/
def pyStrip (l : List Char) : List Char :=
  (dropPySpaces (dropPySpaces l.reverse).reverse)

/-- Python set of strings, embedded as an insertion-ordered list without
duplicates; sadd is set.add. -/
abbrev SSet := List String

/-- Set insertion (Python set.add): no-op when the element is present. -/
def sadd (s : SSet) (x : String) : SSet :=
  if s.contains x then s else s ++ [x]

/-- Set union by repeated insertion (Python set.update). -/
def sunionAdd (s : SSet) (l : List String) : SSet :=
  l.foldl sadd s

/-- Set difference (Python set subtraction). -/
def sdiff (a b : SSet) : SSet :=
  a.filter (fun x => ¬ b.contains x)

/-- Set intersection, used to state disjointness of extraction results. -/
def sinter (a b : SSet) : SSet :=
  a.filter (fun x => b.contains x)

/-- Python str.lower for the ASCII names handled here, character by
character (kernel-computable, unlike the byte-position based library
function). -/
def pyLower (s : String) : String :=
  String.mk (s.data.map Char.toLower)

/-- Model of a sqlglot Table node: an optional db (schema) qualifier and a
name.  A falsy (empty) db attribute in Python is modelled as none. -/
structure TableRef where
  db : Option String
  name : String
deriving DecidableEq, Repr

/-- Model of one parsed sqlglot expression, exposing exactly the queries
the source performs on it: isinstance(_, Create), expression.this,
find_all(Table) and the alias names of find_all(CTE). -/
structure SqlExpr where
  isCreate : Bool
  target : Option TableRef
  tables : List TableRef
  ctes : List String
deriving DecidableEq, Repr

/-- Modelled from the spec: the external SQL parsing capability (sqlglot),
specified at its interface only; parse returns the list of parsed
expressions or an error, render is str() on an expression. -/
structure Sqlglot where
  parse : String → Except String (List SqlExpr)
  render : SqlExpr → String

/-- Name normalization of dependency_analyzer.py: lower-case, and
schema-qualified names formatted as db.name (both parts lowered). -/
def normalizeTableName (t : TableRef) : String :=
  match t.db with
  | some d => pyLower d ++ "." ++ pyLower t.name
  | none => pyLower t.name

/-- Embedding of SQLDependencyAnalyzer._get_table_references: the set of
normalized names of all Table nodes of one expression. -/
def getTableReferences (e : SqlExpr) : SSet :=
  sunionAdd [] (e.tables.map normalizeTableName)

/-- One iteration of the per-expression loop of
_extract_tables_from_query, carrying (cte_tables, created, referenced). -/
def extractStep (acc : SSet × SSet × SSet) (e : SqlExpr) : SSet × SSet × SSet :=
  let cte := sunionAdd acc.1 (e.ctes.map pyLower)
  let created :=
    if e.isCreate then
      match e.target with
      | some t => sadd acc.2.1 (normalizeTableName t)
      | none => acc.2.1
    else acc.2.1
  let tables := getTableReferences e
  let filtered := (tables.filter (fun t => ¬ cte.contains (pyLower t))).map pyLower
  (cte, created, sunionAdd acc.2.2 filtered)

/-- Embedding of SQLDependencyAnalyzer._extract_tables_from_query.  A parse
failure is caught and yields two empty sets; otherwise CTE aliases are
collected and filtered out of the references, and created tables are
removed from the references at the end. -/
def extractTablesFromQuery (P : Sqlglot) (query : String) : SSet × SSet :=
  match P.parse query with
  | .error _ => ([], [])
  | .ok expressions =>
      let r := expressions.foldl extractStep ([], [], [])
      (r.2.1, sdiff r.2.2 r.2.1)

/-- A Python dict mapping table names to the set of tables they depend on,
embedded as an insertion-ordered association list (keys distinct). -/
abbrev Graph := List (String × List String)

/-- Keys of a graph in insertion order (iteration order of a Python dict). -/
def keysOf (g : Graph) : List String := g.map Prod.fst

/-- Adding one edge created -> ref to the defaultdict(set) graph:
graph[created_table].add(ref_table) creates the entry on first access. -/
def graphAdd (g : Graph) (c r : String) : Graph :=
  if (keysOf g).contains c then
    g.map (fun p => if p.1 = c then (p.1, sadd p.2 r) else p)
  else g ++ [(c, sadd [] r)]

/-- One iteration of the query loop of _build_dependency_graph, carrying
(graph, all_tables). -/
def buildGraphStep (P : Sqlglot) (acc : Graph × SSet) (query : String) : Graph × SSet :=
  let cr := extractTablesFromQuery P query
  let allT := sunionAdd (sunionAdd acc.2 cr.1) cr.2
  let g := cr.1.foldl (fun g c => cr.2.foldl (fun g r => graphAdd g c r) g) acc.1
  (g, allT)

/-- Embedding of SQLDependencyAnalyzer._build_dependency_graph: edges from
every created table to every referenced table of the same statement, then
every remaining discovered table becomes a standalone node. -/
def buildDependencyGraph (P : Sqlglot) (queries : List String) : Graph :=
  let r := queries.foldl (buildGraphStep P) ([], [])
  r.2.foldl (fun g t => if (keysOf g).contains t then g else g ++ [(t, [])]) r.1

/-- Pointwise decrement of the in-degree table at one key
(in_degree[dependent] -= 1). -/
def degSub (deg : String → Int) (k : String) : String → Int :=
  fun j => if j = k then deg k - 1 else deg j

/-- Pointwise increment of the in-degree table at one key
(in_degree[dependent] += 1). -/
def degBump (deg : String → Int) (k : String) : String → Int :=
  fun j => if j = k then deg k + 1 else deg j

/-- Removing the popped node from one adjacency set
(graph[dependent].remove(node)). -/
def gErase (g : String → List String) (k node : String) : String → List String :=
  fun j => if j = k then (g k).erase node else g j

/-- Embedding of the in-degree initialization of _topological_sort: for
every node and every entry of its dependency set that is itself a key,
bump that entry. -/
def initDeg (g : Graph) : String → Int :=
  g.foldl
    (fun deg p =>
      p.2.foldl (fun deg d => if (keysOf g).contains d then degBump deg d else deg) deg)
    (fun _ => 0)

/-- Body of the inner for-loop of the sort: for key k, if the popped node
is in graph[k], remove that edge, decrement in_degree[k], and enqueue k
when its count reached zero.  State is (graph, in_degree, queue). -/
def processKey (node : String) (st : (String → List String) × (String → Int) × List String)
    (k : String) : (String → List String) × (String → Int) × List String :=
  if node ∈ st.1 k then
    if degSub st.2.1 k k = 0 then (gErase st.1 k node, degSub st.2.1 k, st.2.2 ++ [k])
    else (gErase st.1 k node, degSub st.2.1 k, st.2.2)
  else st

/-- Processing of one popped node: the inner loop runs over the (fixed)
key list of the graph. -/
def processNode (K : List String) (node : String)
    (st : (String → List String) × (String → Int) × List String) :
    (String → List String) × (String → Int) × List String :=
  K.foldl (processKey node) st

/-- Embedding of the while-loop of _topological_sort.  The fuel argument is
a strict upper bound on the number of iterations; sortLoop_measure below
shows the bound chosen by topologicalSortFull is never exhausted, so the
function agrees with the unbounded Python loop. -/
def sortLoop (K : List String) : Nat → List String → (String → List String) →
    (String → Int) → List String → List String
  | _, [], _, _, res => res
  | 0, _ :: _, _, _, res => res
  | fuel + 1, node :: rest, g, deg, res =>
      let st := processNode K node (g, deg, rest)
      sortLoop K fuel st.2.2 st.1 st.2.1 (res ++ [node])

/-- Sum of the positive in-degree entries over the key list, the fuel
component of the loop bound. -/
def sumPos (K : List String) (deg : String → Int) : Nat :=
  (K.map (fun n => (deg n).toNat)).sum

/-- Embedding of SQLDependencyAnalyzer._topological_sort, returning both
the result list and the list of nodes reported in the circular-dependency
warning (empty when no warning is emitted). -/
def topologicalSortFull (g : Graph) : List String × List String :=
  let K := keysOf g
  let deg := initDeg g
  let q0 := K.filter (fun n => deg n == 0)
  let gfun := fun k => ((g.find? (fun p => p.1 == k)).map Prod.snd).getD []
  let res := sortLoop K (q0.length + sumPos K deg) q0 gfun deg []
  if res.length ≠ K.length then
    (res ++ K.filter (fun n => ¬ res.contains n), K.filter (fun n => ¬ res.contains n))
  else (res, [])

/-- The list returned by _topological_sort. -/
def topologicalSort (g : Graph) : List String :=
  (topologicalSortFull g).1

/-- Embedding of SQLDependencyAnalyzer.analyze_queries. -/
def analyzeQueries (P : Sqlglot) (queries : List String) : List String :=
  topologicalSort (buildDependencyGraph P queries)

/-- Drop characters up to, but not including, the next newline (a line
comment ends at the end-of-line anchor, which does not consume the
newline). -/
def dropToNewline : List Char → List Char
  | [] => []
  | '\n' :: rest => '\n' :: rest
  | _ :: rest => dropToNewline rest

/-- Strip Python-style line comments, fueled: the substitution of the
pattern matching a double hyphen up to end of line (MULTILINE), removing
the comment text but keeping the newline.  Every step consumes at least
one character, so fuel equal to the length never runs out. -/
def stripLineCommentsAux : Nat → List Char → List Char
  | _, [] => []
  | 0, l => l
  | fuel + 1, '-' :: '-' :: rest => stripLineCommentsAux fuel (dropToNewline rest)
  | fuel + 1, c :: rest => c :: stripLineCommentsAux fuel rest

/-- Strip line comments from a character list. -/
def stripLineComments (l : List Char) : List Char :=
  stripLineCommentsAux l.length l

/-- Is a block-comment closer present in the text. -/
def hasBlockEnd : List Char → Bool
  | [] => false
  | '*' :: '/' :: _ => true
  | _ :: rest => hasBlockEnd rest

/-- Drop characters through the next block-comment closer. -/
def dropBlockEnd : List Char → List Char
  | [] => []
  | '*' :: '/' :: rest => rest
  | _ :: rest => dropBlockEnd rest

/-- Strip non-nested block comments, fueled: the lazy DOTALL substitution
removing each comment opener through the nearest closer; an unterminated
comment has no match (and no closer exists further right either), so the
remaining text is kept verbatim. -/
def stripBlockCommentsAux : Nat → List Char → List Char
  | _, [] => []
  | 0, l => l
  | fuel + 1, '/' :: '*' :: rest =>
      if hasBlockEnd rest then stripBlockCommentsAux fuel (dropBlockEnd rest)
      else '/' :: '*' :: rest
  | fuel + 1, c :: rest => c :: stripBlockCommentsAux fuel rest

/-- Strip block comments from a character list. -/
def stripBlockComments (l : List Char) : List Char :=
  stripBlockCommentsAux l.length l

/-- Flush the accumulated statement buffer: append its stripped text when
non-empty (the guard `if current_query.strip()` of the source). -/
def flushBuf (qs : List (List Char)) (cur : List Char) : List (List Char) :=
  if pyStrip cur ≠ [] then qs ++ [pyStrip cur] else qs

/-- Embedding of the character scan of _split_with_regex, carrying
(buffer, in_quotes, quote_char, paren_level, queries).  A closing
parenthesis uses truncated subtraction, matching max(0, level - 1), and a
semicolon outside quotes at level zero flushes the buffer. -/
def scanSplitAux : List Char → List Char → Bool → Option Char → Nat →
    List (List Char) → List (List Char)
  | [], cur, _, _, _, qs => flushBuf qs cur
  | c :: rest, cur, inq, qc, paren, qs =>
      let cur := cur ++ [c]
      if c = '\'' ∨ c = '"' then
        if ¬ inq then scanSplitAux rest cur true (some c) paren qs
        else if some c = qc then scanSplitAux rest cur false none paren qs
        else scanSplitAux rest cur inq qc paren qs
      else if c = '(' ∧ ¬ inq then scanSplitAux rest cur inq qc (paren + 1) qs
      else if c = ')' ∧ ¬ inq then scanSplitAux rest cur inq qc (paren - 1) qs
      else if c = ';' ∧ ¬ inq ∧ paren = 0 then scanSplitAux rest [] inq qc paren (flushBuf qs cur)
      else scanSplitAux rest cur inq qc paren qs

/-- The scan of _split_with_regex started in the initial state. -/
def scanSplit (l : List Char) : List (List Char) :=
  scanSplitAux l [] false none 0 []

/-- Embedding of SQLDependencyAnalyzer._split_with_regex: strip line then
block comments, then run the quote- and parenthesis-aware scan. -/
def splitWithRegex (sql : String) : List String :=
  (scanSplit (stripBlockComments (stripLineComments sql.data))).map (fun l => String.mk l)

/-- The pure quote/parenthesis state transition of the scan, used to state
where statement boundaries can occur; the scan never resets this state at
a flush, so the state after a prefix is a fold of this step. -/
def qpStep (st : Bool × Option Char × Nat) (c : Char) : Bool × Option Char × Nat :=
  if c = '\'' ∨ c = '"' then
    if ¬ st.1 then (true, some c, st.2.2)
    else if some c = st.2.1 then (false, none, st.2.2)
    else st
  else if c = '(' ∧ ¬ st.1 then (st.1, st.2.1, st.2.2 + 1)
  else if c = ')' ∧ ¬ st.1 then (st.1, st.2.1, st.2.2 - 1)
  else st

/-- A state at which a semicolon ends a statement: outside quotes at
parenthesis depth zero. -/
def boundaryState (st : Bool × Option Char × Nat) : Prop :=
  st.1 = false ∧ st.2.2 = 0

instance (st : Bool × Option Char × Nat) : Decidable (boundaryState st) := by
  unfold boundaryState; infer_instance

/-- Embedding of SQLDependencyAnalyzer._is_valid_query_boundary: quotes
paired (even count) and parentheses balanced, skipping line and block
comments, with one-character lookahead for the comment delimiters. -/
def validBoundaryAux : List Char → Bool → Bool → Nat → Nat → Bool
  | [], _, _, q, p => q % 2 = 0 ∧ p = 0
  | c :: rest, true, inB, q, p => validBoundaryAux rest (¬ c = '\n') inB q p
  | c :: rest, false, true, q, p =>
      validBoundaryAux rest false (¬ (c = '*' ∧ rest.head? = some '/')) q p
  | c :: rest, false, false, q, p =>
      if c = '-' ∧ rest.head? = some '-' then validBoundaryAux rest true false q p
      else if c = '/' ∧ rest.head? = some '*' then validBoundaryAux rest false true q p
      else if c = '\'' ∨ c = '"' then validBoundaryAux rest false false (q + 1) p
      else if c = '(' then validBoundaryAux rest false false q (p + 1)
      else if c = ')' then validBoundaryAux rest false false q (p - 1)
      else validBoundaryAux rest false false q p

/-- Embedding of _is_valid_query_boundary on a candidate query string. -/
def isValidQueryBoundary (query : List Char) : Bool :=
  validBoundaryAux query false false 0 0

/-- Inner loop of _stream_split_queries: repeatedly cut the buffer at the
first semicolon; the cut-off text is kept only when it passes the
boundary check, otherwise it is discarded.  Each step removes at least one
character, so fuel equal to the buffer length never runs out. -/
def streamInner : Nat → List Char → List (List Char) → List Char × List (List Char)
  | 0, buf, qs => (buf, qs)
  | fuel + 1, buf, qs =>
      match buf.findIdx? (fun c => c = ';') with
      | none => (buf, qs)
      | some pos =>
          let query := buf.take (pos + 1)
          let buf := buf.drop (pos + 1)
          if isValidQueryBoundary query then
            if pyStrip query ≠ [] then streamInner fuel buf (qs ++ [pyStrip query])
            else streamInner fuel buf qs
          else streamInner fuel buf qs

/-- Cut a character list into consecutive chunks of the given size, as the
chunking list comprehension of _stream_split_queries does (fueled; each
step removes at least one character when the size is positive). -/
def chunksOfAux (n : Nat) : Nat → List Char → List (List Char)
  | _, [] => []
  | 0, l => [l]
  | fuel + 1, l => l.take n :: chunksOfAux n fuel (l.drop n)

/-- Chunking with the default streaming chunk size handling. -/
def chunksOf (n : Nat) (l : List Char) : List (List Char) :=
  chunksOfAux n l.length l

/-- Embedding of SQLDependencyAnalyzer._stream_split_queries: process the
text in chunks of 10000 characters, carry the unconsumed buffer across
chunks, and flush the final buffer remainder as a last statement. -/
def streamSplitQueries (sql : String) : List String :=
  let chunks := chunksOf 10000 sql.data
  let r := chunks.foldl
    (fun (st : List Char × List (List Char)) chunk =>
      let buf := st.1 ++ chunk
      streamInner buf.length buf st.2)
    ([], [])
  let qs := if pyStrip r.1 ≠ [] then r.2 ++ [pyStrip r.1] else r.2
  qs.map (fun l => String.mk l)

/-- Case-insensitive match of a fixed word against the front of a text;
returns the remaining text after the word on success. -/
def ciMatchWord : List Char → List Char → Option (List Char)
  | [], l => some l
  | _ :: _, [] => none
  | w :: ws, c :: cs => if c.toLower = w.toLower then ciMatchWord ws cs else none

/-- Remove every case-insensitive occurrence of a word (the NOLOGGING
cleanup substitution); fueled, each step consumes at least one
character. -/
def removeWordCIAux (word : List Char) : Nat → List Char → List Char
  | _, [] => []
  | 0, l => l
  | fuel + 1, c :: rest =>
      match ciMatchWord word (c :: rest) with
      | some l => removeWordCIAux word fuel l
      | none => c :: removeWordCIAux word fuel rest

/-- Remove every case-insensitive occurrence of a non-empty word. -/
def removeWordCI (word : String) (l : List Char) : List Char :=
  removeWordCIAux word.data l.length l

/-- Match one or more decimal digits, returning the rest. -/
def matchDigits : List Char → Option (List Char)
  | [] => none
  | c :: rest =>
      if c.isDigit then
        some (dropDigits rest)
      else none
where
  dropDigits : List Char → List Char
    | [] => []
    | c :: rest => if c.isDigit then dropDigits rest else c :: rest

/-- Remove every case-insensitive occurrence of the pattern PARALLEL
followed by a space and digits (the second Oracle-syntax cleanup
substitution); fueled. -/
def removeParallelAux : Nat → List Char → List Char
  | _, [] => []
  | 0, l => l
  | fuel + 1, c :: rest =>
      match ciMatchWord "PARALLEL ".data (c :: rest) with
      | some l =>
          match matchDigits l with
          | some l' => removeParallelAux fuel l'
          | none => c :: removeParallelAux fuel rest
      | none => c :: removeParallelAux fuel rest

/-- Remove every PARALLEL-with-degree clause. -/
def removeParallel (l : List Char) : List Char :=
  removeParallelAux l.length l

/-- Embedding of SQLDependencyAnalyzer._process_large_batch: a quick
semicolon count decides between the streaming splitter and the regular
character scan. -/
def processLargeBatch (sql : String) : List String :=
  let quickCount := (sql.data.filter (fun c => c = ';')).length + 1
  if quickCount > 1000 then streamSplitQueries sql else splitWithRegex sql

/-- Embedding of SQLDependencyAnalyzer.split_batch_queries: inputs above
one megabyte get the Oracle-syntax cleanup and the large-batch treatment;
otherwise the structural parser is tried first, the rendered expressions
are returned on success, and the character scan is the fallback on a parse
exception or an empty parse of non-empty input. -/
def splitBatchQueries (P : Sqlglot) (sql : String) : List String :=
  if sql.length > 1000000 then
    processLargeBatch (String.mk (removeParallel (removeWordCI "NOLOGGING" sql.data)))
  else
    match P.parse sql with
    | .ok parsed =>
        if parsed ≠ [] then parsed.map P.render
        else if pyStrip sql.data ≠ [] then splitWithRegex sql
        else []
    | .error _ => splitWithRegex sql

/-- Per-statement record of the analysis result (query_details entry). -/
structure QueryDetail where
  query : String
  creates : List String
  references : List String
deriving DecidableEq, Repr

/-- The analysis result dictionary.  The two option fields are present
only in the large-batch result, as in the source; the wall-clock timing
field is not modelled. -/
structure BatchResult where
  table_creation_order : List String
  external_dependencies : List String
  query_details : List QueryDetail
  total_queries : Nat
  total_tables : Nat
  created_tables : Option Nat
  note : Option String
deriving DecidableEq, Repr

/-- One iteration of the extraction loop of the regular branch of
analyze_batch, carrying (query_details, all_created, all_referenced); the
source iterates in chunks of 100 purely to bound transient memory, which
is the same single ordered pass. -/
def standardStep (P : Sqlglot) (acc : List QueryDetail × SSet × SSet) (q : String) :
    List QueryDetail × SSet × SSet :=
  let cr := extractTablesFromQuery P q
  (acc.1 ++ [⟨q, cr.1, cr.2⟩], sunionAdd acc.2.1 cr.1, sunionAdd acc.2.2 cr.2)

/-- Embedding of the regular (at most 1000 statements) branch of
SQLDependencyAnalyzer.analyze_batch. -/
def analyzeStandard (P : Sqlglot) (queries : List String) : BatchResult :=
  let r := queries.foldl (standardStep P) ([], [], [])
  let external := sdiff r.2.2 r.2.1
  { table_creation_order := analyzeQueries P queries
    external_dependencies := external
    query_details := r.1
    total_queries := queries.length
    total_tables := r.2.1.length + external.length
    created_tables := none
    note := none }

/-- The CREATE-statement test of _analyze_large_batch: optional leading
whitespace, the word CREATE case-insensitively, then one whitespace. -/
def isCreateStatement (q : String) : Bool :=
  match ciMatchWord "CREATE".data (dropPySpaces q.data) with
  | some (c :: _) => pySpace c
  | some [] => false
  | none => false

/-- Embedding of SQLDependencyAnalyzer._analyze_large_batch.  Created
tables come from the CREATE statements; the aggregated referenced set is
accumulated only over the non-CREATE statements; detail records for
non-CREATE statements are capped at 1000; the dependency graph is built
from the CREATE statements plus the non-CREATE statements among the first
1000 whose references intersect the created set. -/
def analyzeLargeBatch (P : Sqlglot) (queries : List String) : BatchResult :=
  let createStatements := queries.filter (fun q => isCreateStatement q)
  let otherStatements := queries.filter (fun q => ¬ isCreateStatement q)
  let cpass := createStatements.foldl
    (fun (acc : SSet × List QueryDetail) q =>
      let cr := extractTablesFromQuery P q
      (sunionAdd acc.1 cr.1, acc.2 ++ [⟨q, cr.1, cr.2⟩]))
    ([], [])
  let opass := otherStatements.foldl
    (fun (acc : SSet × List QueryDetail) q =>
      let r := (extractTablesFromQuery P q).2
      (sunionAdd acc.1 r,
       if acc.2.length < 1000 then acc.2 ++ [⟨q, [], r⟩] else acc.2))
    ([], [])
  let queryTables := cpass.2 ++ opass.2.take (min 1000 opass.2.length)
  let external := sdiff opass.1 cpass.1
  let critical := createStatements ++
    (otherStatements.take 1000).filter
      (fun q => sinter (extractTablesFromQuery P q).2 cpass.1 ≠ [])
  { table_creation_order := analyzeQueries P critical
    external_dependencies := external
    query_details := queryTables
    total_queries := queries.length
    total_tables := cpass.1.length + external.length
    created_tables := some cpass.1.length
    note := some "Large batch optimization applied" }

/-- Embedding of SQLDependencyAnalyzer.analyze_batch: split, then choose
the large-batch analysis above 1000 statements and the regular branch
otherwise. -/
def analyzeBatch (P : Sqlglot) (sql : String) : BatchResult :=
  let queries := splitBatchQueries P sql
  if queries.length > 1000 then analyzeLargeBatch P queries
  else analyzeStandard P queries

/-- Modelled from the spec: the sqlglot parse of CREATE TABLE b AS SELECT
FROM a; find_all(Table) visits the creation target and the source table,
and the Create target is the table b. -/
def exprCreateB : SqlExpr :=
  ⟨true, some ⟨none, "b"⟩, [⟨none, "b"⟩, ⟨none, "a"⟩], []⟩

/-- Modelled from the spec: the sqlglot parse of CREATE TABLE c AS SELECT
FROM b. -/
def exprCreateC : SqlExpr :=
  ⟨true, some ⟨none, "c"⟩, [⟨none, "c"⟩, ⟨none, "b"⟩], []⟩

/-- The end-to-end scenario batch of the specification. -/
def c2Batch : String :=
  "CREATE TABLE b AS SELECT * FROM a; CREATE TABLE c AS SELECT * FROM b;"

/-- Rendered form of the first statement of the scenario batch. -/
def c2Stmt1 : String := "CREATE TABLE b AS SELECT * FROM a"

/-- Rendered form of the second statement of the scenario batch. -/
def c2Stmt2 : String := "CREATE TABLE c AS SELECT * FROM b"

/-- Modelled from the spec: the external parser (sqlglot, not in src) on
the strings of the end-to-end scenario; parse of the whole batch yields
both expressions, parse of each rendered statement yields that
expression, and everything else is a parse error. -/
def sqlglotScenario : Sqlglot where
  parse := fun s =>
    if s = c2Batch then .ok [exprCreateB, exprCreateC]
    else if s = c2Stmt1 then .ok [exprCreateB]
    else if s = c2Stmt2 then .ok [exprCreateC]
    else .error "ParseError"
  render := fun e => if e = exprCreateB then c2Stmt1 else c2Stmt2

/-- The CTE-exclusion example statement of the specification. -/
def cteQuery : String := "WITH t AS (SELECT 1) SELECT * FROM t, real_table"

/-- Modelled from the spec: the sqlglot parse of the CTE example, with the
CTE alias t and table nodes for t and real_table. -/
def exprCte : SqlExpr :=
  ⟨false, none, [⟨none, "t"⟩, ⟨none, "real_table"⟩], ["t"]⟩

/-- Modelled from the spec: the external parser on the CTE example. -/
def sqlglotCte : Sqlglot where
  parse := fun s => if s = cteQuery then .ok [exprCte] else .error "ParseError"
  render := fun _ => ""

/-- The self-reference example statement of the specification. -/
def selfRefQuery : String := "CREATE TABLE a AS SELECT * FROM a, b"

/-- Modelled from the spec: the sqlglot parse of the self-reference
example, creating a and visiting table nodes a and b. -/
def exprSelfRef : SqlExpr :=
  ⟨true, some ⟨none, "a"⟩, [⟨none, "a"⟩, ⟨none, "b"⟩], []⟩

/-- Modelled from the spec: the external parser on the self-reference
example. -/
def sqlglotSelfRef : Sqlglot where
  parse := fun s => if s = selfRefQuery then .ok [exprSelfRef] else .error "ParseError"
  render := fun _ => ""

/-- Modelled from the spec: a parser that fails on every statement, for
exercising the per-statement failure recovery. -/
def sqlglotFailing : Sqlglot where
  parse := fun _ => .error "ParseError"
  render := fun _ => ""

/-! Helper lemmas about the set embedding. -/

theorem mem_sadd {s : SSet} {x y : String} : y ∈ sadd s x ↔ y ∈ s ∨ y = x := by
  unfold sadd
  split
  · next h =>
      constructor
      · exact Or.inl
      · rintro (hy | rfl)
        · exact hy
        · exact List.elem_iff.mp h
  · simp

theorem mem_sunionAdd {l : List String} :
    ∀ {s : SSet} {y : String}, y ∈ sunionAdd s l ↔ y ∈ s ∨ y ∈ l := by
  induction l with
  | nil => simp [sunionAdd]
  | cons x xs ih =>
      intro s y
      show y ∈ sunionAdd (sadd s x) xs ↔ _
      rw [ih, mem_sadd]
      simp only [List.mem_cons]
      tauto

theorem mem_sdiff {a b : SSet} {y : String} : y ∈ sdiff a b ↔ y ∈ a ∧ y ∉ b := by
  unfold sdiff
  simp [List.elem_iff]

/-! Lemmas about the extractor. -/

/-- The query_details accumulator of the regular branch is one record per
statement, in order. -/
theorem standard_details_fold (P : Sqlglot) :
    ∀ (qs : List String) (d : List QueryDetail) (c r : SSet),
      (qs.foldl (standardStep P) (d, c, r)).1 =
        d ++ qs.map (fun q =>
          ⟨q, (extractTablesFromQuery P q).1, (extractTablesFromQuery P q).2⟩) := by
  intro qs
  induction qs with
  | nil => intro d c r; simp
  | cons q qs ih =>
      intro d c r
      show (qs.foldl (standardStep P) (standardStep P (d, c, r) q)).1 = _
      rw [show standardStep P (d, c, r) q =
            (d ++ [⟨q, (extractTablesFromQuery P q).1, (extractTablesFromQuery P q).2⟩],
             sunionAdd c (extractTablesFromQuery P q).1,
             sunionAdd r (extractTablesFromQuery P q).2) from rfl]
      rw [ih]
      simp

/-- For a statement parsing to a single expression, no lowered CTE alias
of that expression survives into the referenced set: the per-expression
filter drops every raw reference whose lowered form matches a collected
alias. -/
theorem extract_single_not_cte (P : Sqlglot) (q : String) (e : SqlExpr)
    (hp : P.parse q = .ok [e]) :
    ∀ a ∈ e.ctes, pyLower a ∉ (extractTablesFromQuery P q).2 := by
  intro a ha hmem
  have hres : (extractTablesFromQuery P q).2 =
      sdiff (extractStep ([], [], []) e).2.2 (extractStep ([], [], []) e).2.1 := by
    unfold extractTablesFromQuery
    rw [hp]
    rfl
  rw [hres] at hmem
  have hrefs : pyLower a ∈ (extractStep ([], [], []) e).2.2 := (mem_sdiff.mp hmem).1
  rcases mem_sunionAdd.mp hrefs with h0 | hfil
  · exact absurd h0 (List.not_mem_nil _)
  · rcases List.mem_map.mp hfil with ⟨t, ht, heq⟩
    have hnot := List.of_mem_filter ht
    have hcte : (sunionAdd [] (e.ctes.map pyLower)).contains (pyLower t) := by
      rw [heq]
      exact List.elem_iff.mpr (mem_sunionAdd.mpr (Or.inr (List.mem_map_of_mem pyLower ha)))
    simp only [decide_eq_true_eq] at hnot
    exact hnot hcte

/-- The created and referenced sets returned by the extractor are always
disjoint, because the created set is subtracted from the referenced set
in the last step (and a parse failure returns two empty sets). -/
theorem extract_disjoint (P : Sqlglot) (q : String) :
    sinter (extractTablesFromQuery P q).1 (extractTablesFromQuery P q).2 = [] := by
  unfold extractTablesFromQuery
  cases hp : P.parse q with
  | error msg => rfl
  | ok es =>
      simp only
      apply List.filter_eq_nil_iff.mpr
      intro x hx hdec
      exact (mem_sdiff.mp (List.elem_iff.mp hdec)).2 hx

/-- On a parse failure the extractor returns two empty sets. -/
theorem extract_of_parse_error (P : Sqlglot) (q : String) (msg : String)
    (hp : P.parse q = .error msg) : extractTablesFromQuery P q = ([], []) := by
  unfold extractTablesFromQuery
  rw [hp]

/-- C5: for every statement on which the SQL parser fails, the extractor
returns two empty sets and does not abort the batch: the regular analysis
still produces one detail record per statement, each obtained by running
the extractor on that statement independently. -/
theorem parse_failure_recovered (P : Sqlglot) (q msg : String)
    (hp : P.parse q = .error msg) :
    extractTablesFromQuery P q = ([], []) ∧
    ∀ qs : List String, (analyzeStandard P qs).query_details =
      qs.map (fun s =>
        ⟨s, (extractTablesFromQuery P s).1, (extractTablesFromQuery P s).2⟩) := by
  refine ⟨extract_of_parse_error P q msg hp, ?_⟩
  intro qs
  show (qs.foldl (standardStep P) ([], [], [])).1 = _
  rw [standard_details_fold]
  simp

/-- Witness for C5 at a concrete failing statement inside a two-statement
batch: the failing statement yields empty sets and the other statement is
still analyzed. -/
theorem parse_failure_recovered_witness :
    extractTablesFromQuery sqlglotFailing "SELEC * FRM t" = ([], []) ∧
    (analyzeStandard sqlglotFailing ["SELEC * FRM t", "SELECT 1"]).query_details =
      [⟨"SELEC * FRM t", [], []⟩, ⟨"SELECT 1", [], []⟩] := by
  have h := parse_failure_recovered sqlglotFailing "SELEC * FRM t" "ParseError" rfl
  refine ⟨h.1, ?_⟩
  rw [h.2]
  decide

/-- C6: every CTE alias defined in a statement (one whose parse yields a
single expression) is removed case-insensitively from that statement's
referenced set, and therefore cannot surface among the external
dependencies contributed by that statement; on the concrete example the
referenced set is exactly the real table. -/
theorem cte_aliases_excluded :
    (∀ (P : Sqlglot) (q : String) (e : SqlExpr), P.parse q = .ok [e] →
      ∀ a ∈ e.ctes, pyLower a ∉ (extractTablesFromQuery P q).2 ∧
        pyLower a ∉ (analyzeStandard P [q]).external_dependencies)
    ∧ extractTablesFromQuery sqlglotCte cteQuery = ([], ["real_table"]) := by
  constructor
  · intro P q e hp a ha
    refine ⟨extract_single_not_cte P q e hp a ha, ?_⟩
    show pyLower a ∉ sdiff (sunionAdd [] (extractTablesFromQuery P q).2)
      (sunionAdd [] (extractTablesFromQuery P q).1)
    intro hmem
    have hr := (mem_sdiff.mp hmem).1
    rcases mem_sunionAdd.mp hr with h0 | h0
    · exact List.not_mem_nil _ h0
    · exact extract_single_not_cte P q e hp a ha h0
  · decide

/-- Witness for C6 at the concrete CTE example: the lowered alias t is
absent from the referenced set. -/
theorem cte_aliases_excluded_witness :
    pyLower "t" ∉ (extractTablesFromQuery sqlglotCte cteQuery).2 :=
  (cte_aliases_excluded.1 sqlglotCte cteQuery exprCte rfl "t" (by decide)).1

/-- C7: for every statement the extractor result satisfies created
intersect referenced empty (self-reference pruning), and the concrete
self-reference example yields created a and referenced b only. -/
theorem created_referenced_disjoint :
    (∀ (P : Sqlglot) (q : String),
      sinter (extractTablesFromQuery P q).1 (extractTablesFromQuery P q).2 = [])
    ∧ extractTablesFromQuery sqlglotSelfRef selfRefQuery = (["a"], ["b"]) :=
  ⟨extract_disjoint, by decide⟩

/-! Lemmas about the character-scan splitter. -/

/-- One step of the scan that is not a statement flush advances the buffer
and evolves the quote and parenthesis state exactly by qpStep. -/
theorem scanSplitAux_step (c : Char) (rest cur : List Char) (inq : Bool) (qc : Option Char)
    (p : Nat) (qs : List (List Char))
    (hb : ¬ (c = ';' ∧ ¬ (inq = true) ∧ p = 0)) :
    scanSplitAux (c :: rest) cur inq qc p qs =
      scanSplitAux rest (cur ++ [c]) (qpStep (inq, qc, p) c).1
        (qpStep (inq, qc, p) c).2.1 (qpStep (inq, qc, p) c).2.2 qs := by
  simp only [scanSplitAux, qpStep]
  split_ifs <;> rfl

/-- If no semicolon of the remaining text occurs at a boundary state
(outside quotes at depth zero, as computed by folding qpStep from the
current state), the scan performs no further split: it returns the
accumulated statements plus, at most, the single trimmed remainder. -/
theorem scanSplitAux_no_boundary :
    ∀ (l cur : List Char) (inq : Bool) (qc : Option Char) (p : Nat) (qs : List (List Char)),
      (∀ i : Nat, i < l.length → l.getD i ' ' = ';' →
        ¬ boundaryState ((l.take i).foldl qpStep (inq, qc, p))) →
      scanSplitAux l cur inq qc p qs = flushBuf qs (cur ++ l)
  | [], cur, inq, qc, p, qs, _ => by simp [scanSplitAux]
  | c :: rest, cur, inq, qc, p, qs, h => by
      have hb : ¬ (c = ';' ∧ ¬ (inq = true) ∧ p = 0) := by
        rintro ⟨hc, hq, hp⟩
        refine h 0 (by simp) (by simpa using hc) ?_
        simp only [List.take_zero, List.foldl_nil, boundaryState]
        exact ⟨by simpa using hq, hp⟩
      rw [scanSplitAux_step c rest cur inq qc p qs hb]
      rw [scanSplitAux_no_boundary rest (cur ++ [c]) _ _ _ qs ?_]
      · simp
      · intro i hi hsemi
        have hmain := h (i + 1) (by simpa using hi) (by simpa using hsemi)
        simpa [List.take_succ_cons] using hmain

/-- C9: the character-scan splitter does not end a statement at a
semicolon inside a quoted literal: the concrete INSERT example splits
into exactly one statement, and in general an input whose semicolons all
occur at non-boundary scan states (inside quotes or at positive
parenthesis depth) produces at most the single trimmed statement. -/
theorem quoted_semicolon_not_boundary :
    splitWithRegex "INSERT INTO t VALUES ('a;b')" = ["INSERT INTO t VALUES ('a;b')"] ∧
    ∀ l : List Char,
      (∀ i : Nat, i < l.length → l.getD i ' ' = ';' →
        ¬ boundaryState ((l.take i).foldl qpStep (false, none, 0))) →
      scanSplit l = if pyStrip l ≠ [] then [pyStrip l] else [] := by
  constructor
  · decide
  · intro l h
    show scanSplitAux l [] false none 0 [] = _
    rw [scanSplitAux_no_boundary l [] false none 0 [] h]
    simp [flushBuf]

/-- Witness for C9: the general statement applied to the quoted text with
an inner semicolon, with the non-boundary hypothesis checked by
evaluation. -/
theorem quoted_semicolon_not_boundary_witness :
    scanSplit "'a;b'".data =
      if pyStrip "'a;b'".data ≠ [] then [pyStrip "'a;b'".data] else [] :=
  quoted_semicolon_not_boundary.2 _ (by decide)

/-! Invariant lemmas for the topological sort loop. -/

/-- Case analysis of one inner-loop step: either nothing happens, or the
in-degree table is decremented at the processed key, with the key enqueued
exactly when its count was one. -/
theorem processKey_spec (node : String)
    (st : (String → List String) × (String → Int) × List String) (k : String) :
    processKey node st k = st ∨
    ((processKey node st k).2.1 = degSub st.2.1 k ∧
     ((processKey node st k).2.2 = st.2.2 ∨
      ((processKey node st k).2.2 = st.2.2 ++ [k] ∧ st.2.1 k = 1))) := by
  unfold processKey
  split_ifs with h1 h2
  · refine Or.inr ⟨rfl, Or.inr ⟨rfl, ?_⟩⟩
    have hz : st.2.1 k - 1 = 0 := by simpa [degSub] using h2
    omega
  · exact Or.inr ⟨rfl, Or.inl rfl⟩
  · exact Or.inl rfl

/-- The decrement map is pointwise below the original. -/
theorem degSub_le (deg : String → Int) (k x : String) : degSub deg k x ≤ deg x := by
  unfold degSub
  split_ifs with h
  · subst h; omega
  · exact le_refl _

/-- One inner-loop step never raises any in-degree entry. -/
theorem processKey_deg_le (node : String)
    (st : (String → List String) × (String → Int) × List String) (k x : String) :
    (processKey node st k).2.1 x ≤ st.2.1 x := by
  rcases processKey_spec node st k with h | ⟨hd, _⟩
  · rw [h]
  · rw [hd]; exact degSub_le st.2.1 k x

/-- The full inner loop: in-degrees never increase, and the queue is
extended by a duplicate-free selection of processed keys, each of which
had positive in-degree before the loop and non-positive after it. -/
theorem processFold_spec (node : String) :
    ∀ (ks : List String) (st : (String → List String) × (String → Int) × List String),
      (∀ x, (ks.foldl (processKey node) st).2.1 x ≤ st.2.1 x) ∧
      ∃ ext : List String,
        (ks.foldl (processKey node) st).2.2 = st.2.2 ++ ext ∧
        ext.Sublist ks ∧
        ∀ d ∈ ext, 1 ≤ st.2.1 d ∧ (ks.foldl (processKey node) st).2.1 d ≤ 0 := by
  intro ks
  induction ks with
  | nil => intro st; exact ⟨fun x => le_refl _, [], by simp, List.Sublist.refl _, by simp⟩
  | cons k ks ih =>
      intro st
      have hfold : (k :: ks).foldl (processKey node) st =
          ks.foldl (processKey node) (processKey node st k) := rfl
      obtain ⟨mono1, ext1, hq1, hsub1, hd1⟩ := ih (processKey node st k)
      have hmono : ∀ x, ((k :: ks).foldl (processKey node) st).2.1 x ≤ st.2.1 x := by
        intro x
        rw [hfold]
        exact le_trans (mono1 x) (processKey_deg_le node st k x)
      rcases processKey_spec node st k with hA | ⟨hdeg, hqcase⟩
      · refine ⟨hmono, ext1, ?_, hsub1.cons k, ?_⟩
        · rw [hfold, hq1, hA]
        · intro d hd
          have hprev := hd1 d hd
          rw [hA] at hprev
          exact ⟨hprev.1, by rw [hfold, hA]; exact hprev.2⟩
      · rcases hqcase with hq | ⟨hq, hone⟩
        · refine ⟨hmono, ext1, ?_, hsub1.cons k, ?_⟩
          · rw [hfold, hq1, hq]
          · intro d hd
            have hprev := hd1 d hd
            exact ⟨le_trans hprev.1 (processKey_deg_le node st k d),
              by rw [hfold]; exact hprev.2⟩
        · refine ⟨hmono, k :: ext1, ?_, hsub1.cons₂ k, ?_⟩
          · rw [hfold, hq1, hq, List.append_assoc]
            rfl
          · intro d hd
            rcases List.mem_cons.mp hd with rfl | hd'
            · refine ⟨by omega, ?_⟩
              rw [hfold]
              refine le_trans (mono1 d) ?_
              rw [hdeg]
              unfold degSub
              simp [hone]
            · have hprev := hd1 d hd'
              exact ⟨le_trans hprev.1 (processKey_deg_le node st k d),
                by rw [hfold]; exact hprev.2⟩

/-- Monotonicity of the positive-part sum under pointwise order. -/
theorem sumPos_mono (K : List String) (f g : String → Int) (h : ∀ x, f x ≤ g x) :
    sumPos K f ≤ sumPos K g := by
  induction K with
  | nil => exact le_refl _
  | cons a K ih =>
      unfold sumPos at ih ⊢
      simp only [List.map_cons, List.sum_cons]
      exact Nat.add_le_add (Int.toNat_le_toNat (h a)) ih

/-- The positive-part sum only depends on the values on the key list. -/
theorem sumPos_congr (K : List String) (f g : String → Int) (h : ∀ x ∈ K, f x = g x) :
    sumPos K f = sumPos K g := by
  induction K with
  | nil => rfl
  | cons a K ih =>
      unfold sumPos at ih ⊢
      simp only [List.map_cons, List.sum_cons]
      rw [h a (List.mem_cons_self a K), ih (fun x hx => h x (List.mem_cons_of_mem a hx))]

/-- Decrementing an entry that equals one lowers the positive-part sum by
exactly one (the key list has no duplicates). -/
theorem sumPos_degSub_of_one (K : List String) (deg : String → Int) (k : String)
    (hK : K.Nodup) (hk : k ∈ K) (h1 : deg k = 1) :
    sumPos K (degSub deg k) + 1 = sumPos K deg := by
  induction K with
  | nil => exact absurd hk (List.not_mem_nil _)
  | cons a K ih =>
      rcases List.mem_cons.mp hk with rfl | hk'
      · have hrest : sumPos K (degSub deg k) = sumPos K deg := by
          refine sumPos_congr K _ _ ?_
          intro x hx
          have hxk : x ≠ k := by
            intro hcontra
            subst hcontra
            exact (List.nodup_cons.mp hK).1 hx
          unfold degSub
          simp [hxk]
        unfold sumPos at hrest ⊢
        simp only [List.map_cons, List.sum_cons]
        have hsk : degSub deg k k = 0 := by unfold degSub; simp [h1]
        rw [hsk, h1]
        omega
      · have ih' := ih (List.nodup_cons.mp hK).2 hk'
        unfold sumPos at ih' ⊢
        simp only [List.map_cons, List.sum_cons]
        have hak : a ≠ k := by
          intro hcontra
          subst hcontra
          exact (List.nodup_cons.mp hK).1 hk'
        have hsa : degSub deg k a = deg a := by unfold degSub; simp [hak]
        rw [hsa]
        omega

/-- The inner loop does not increase the loop measure (queue length plus
positive in-degree mass over the keys). -/
theorem processFold_measure (node : String) (K : List String) (hK : K.Nodup) :
    ∀ (ks : List String) (st : (String → List String) × (String → Int) × List String),
      (∀ j ∈ ks, j ∈ K) →
      (ks.foldl (processKey node) st).2.2.length + sumPos K (ks.foldl (processKey node) st).2.1
        ≤ st.2.2.length + sumPos K st.2.1 := by
  intro ks
  induction ks with
  | nil => intro st _; exact le_refl _
  | cons k ks ih =>
      intro st hks
      have hfold : (k :: ks).foldl (processKey node) st =
          ks.foldl (processKey node) (processKey node st k) := rfl
      rw [hfold]
      refine le_trans (ih (processKey node st k) (fun j hj => hks j (List.mem_cons_of_mem k hj))) ?_
      rcases processKey_spec node st k with hA | ⟨hdeg, hqcase⟩
      · rw [hA]
      · rcases hqcase with hq | ⟨hq, hone⟩
        · rw [hq, hdeg]
          exact Nat.add_le_add (le_refl _) (sumPos_mono K _ _ (degSub_le st.2.1 k))
        · rw [hq, hdeg]
          have hid := sumPos_degSub_of_one K st.2.1 k hK (hks k (List.mem_cons_self k ks)) hone
          simp only [List.length_append, List.length_cons, List.length_nil]
          omega

/-- Main loop invariant: starting from a duplicate-free queue of keys
whose in-degrees are non-positive, with fuel at least the loop measure,
the loop returns a duplicate-free list of keys.  The fuel bound used by
the embedding (initial queue length plus positive in-degree mass) is an
instance, so the fueled loop agrees with the unbounded Python loop. -/
theorem sortLoop_spec (K : List String) (hK : K.Nodup) :
    ∀ (fuel : Nat) (q : List String) (g : String → List String) (deg : String → Int)
      (res : List String),
      (res ++ q).Nodup →
      (∀ x ∈ res ++ q, x ∈ K) →
      (∀ x ∈ res ++ q, deg x ≤ 0) →
      q.length + sumPos K deg ≤ fuel →
      (sortLoop K fuel q g deg res).Nodup ∧ ∀ x ∈ sortLoop K fuel q g deg res, x ∈ K := by
  intro fuel
  induction fuel with
  | zero =>
      intro q g deg res h1 h2 h3 h4
      cases q with
      | nil =>
          rw [List.append_nil] at h1 h2
          exact ⟨h1, h2⟩
      | cons node rest =>
          simp only [List.length_cons] at h4
          omega
  | succ fuel ih =>
      intro q g deg res h1 h2 h3 h4
      cases q with
      | nil =>
          rw [List.append_nil] at h1 h2
          exact ⟨h1, h2⟩
      | cons node rest =>
          have hloop : sortLoop K (fuel + 1) (node :: rest) g deg res =
              sortLoop K fuel (processNode K node (g, deg, rest)).2.2
                (processNode K node (g, deg, rest)).1
                (processNode K node (g, deg, rest)).2.1 (res ++ [node]) := rfl
          rw [hloop]
          obtain ⟨mono, ext, hq, hsub, hd⟩ := processFold_spec node K (g, deg, rest)
          have hmeasure := processFold_measure node K hK K (g, deg, rest) (fun j hj => hj)
          have hextK : ∀ x ∈ ext, x ∈ K := fun x hx => hsub.subset hx
          have hextpos : ∀ d ∈ ext, 1 ≤ deg d := fun d hdm => (hd d hdm).1
      /- the new result-plus-queue list is the old one with ext appended -/
          have hassoc : res ++ [node] ++ (processNode K node (g, deg, rest)).2.2 =
              (res ++ node :: rest) ++ ext := by
            rw [show (processNode K node (g, deg, rest)).2.2 =
                  (K.foldl (processKey node) (g, deg, rest)).2.2 from rfl, hq]
            simp
          refine ih (processNode K node (g, deg, rest)).2.2 (processNode K node (g, deg, rest)).1
            (processNode K node (g, deg, rest)).2.1 (res ++ [node]) ?_ ?_ ?_ ?_
          · rw [hassoc]
            rw [List.nodup_append]
            refine ⟨h1, hsub.nodup hK, ?_⟩
            intro a ha ha'
            have hle := h3 a ha
            have hpos := hextpos a ha'
            omega
          · intro x hx
            rw [hassoc] at hx
            rcases List.mem_append.mp hx with hx' | hx'
            · exact h2 x hx'
            · exact hextK x hx'
          · intro x hx
            rw [hassoc] at hx
            rcases List.mem_append.mp hx with hx' | hx'
            · exact le_trans (mono x) (h3 x hx')
            · exact (hd x hx').2
          · have hqlen : (processNode K node (g, deg, rest)).2.2.length +
                sumPos K (processNode K node (g, deg, rest)).2.1 ≤
                rest.length + sumPos K deg := hmeasure
            simp only [List.length_cons] at h4
            omega

/-- The list returned by the topological sort is always a permutation of
the key list of the graph: the queue emits each node at most once, and the
cycle fallback appends exactly the missing keys. -/
theorem topologicalSort_perm (g : Graph) (h : (keysOf g).Nodup) :
    (topologicalSort g).Perm (keysOf g) := by
  unfold topologicalSort topologicalSortFull
  simp only
  set K := keysOf g with hk
  set deg := initDeg g with hdeg
  set q0 := K.filter (fun n => deg n == 0) with hq0
  set gfun := fun k => ((g.find? (fun p => p.1 == k)).map Prod.snd).getD [] with hgfun
  set res := sortLoop K (q0.length + sumPos K deg) q0 gfun deg [] with hres
  have hspec := sortLoop_spec K h (q0.length + sumPos K deg) q0 gfun deg []
    (by simpa using h.filter _)
    (by
      intro x hx
      rw [List.nil_append] at hx
      exact (List.mem_filter.mp hx).1)
    (by
      intro x hx
      rw [List.nil_append] at hx
      have := (List.mem_filter.mp hx).2
      have heq : deg x = 0 := by simpa using this
      omega)
    (le_refl _)
  rw [← hres] at hspec
  obtain ⟨hnodup, hsub⟩ := hspec
  have hsub' : res ⊆ K := fun x hx => hsub x hx
  split_ifs with hlen
  · -- cycle fallback: res plus the keys not in res
    have hperm1 : res.Perm (K.filter (fun n => res.contains n)) := by
      refine (List.perm_ext_iff_of_nodup hnodup (h.filter _)).mpr ?_
      intro x
      constructor
      · intro hx
        exact List.mem_filter.mpr ⟨hsub' hx, by simpa using hx⟩
      · intro hx
        have := (List.mem_filter.mp hx).2
        simpa using this
    have hfeq : (fun n => (¬ res.contains n : Bool)) = fun n => !(res.contains n) := by
      funext n
      simp
    have hsplit := List.filter_append_perm (fun n => res.contains n) K
    show (res ++ K.filter (fun n => ¬ res.contains n)).Perm K
    rw [hfeq]
    exact List.Perm.trans (hperm1.append_right _) hsplit
  · -- no fallback: equal lengths force res to exhaust the keys
    have hsubperm := List.subperm_of_subset hnodup hsub'
    have hlen' : K.length ≤ res.length := by omega
    show res.Perm K
    exact hsubperm.perm_of_length_le hlen'

/-- C1 (failing evaluation): on the acyclic graph where b depends on a,
the sorter returns b before a, so the dependency a does not appear at an
earlier index, and the sorter even takes its cycle-fallback branch (a is
reported as being in a cycle) although the graph is acyclic; the
initialization counts dependents instead of outstanding dependencies. -/
theorem topologicalSort_emits_dependency_last :
    topologicalSort [("b", ["a"]), ("a", [])] = ["b", "a"] ∧
    (topologicalSortFull [("b", ["a"]), ("a", [])]).2 = ["a"] := by
  decide

/-- C2 (failing evaluation): on the end-to-end scenario batch the
analysis computes total_tables three and external_dependencies exactly a,
as the claim states, but the creation order is c, b, a — the reverse of
the claimed a before b before c. -/
theorem analyzeBatch_scenario_eval :
    (analyzeBatch sqlglotScenario c2Batch).table_creation_order = ["c", "b", "a"] ∧
    (analyzeBatch sqlglotScenario c2Batch).external_dependencies = ["a"] ∧
    (analyzeBatch sqlglotScenario c2Batch).total_tables = 3 := by
  decide

/-- C3 (failing evaluation): for the one-statement batch CREATE TABLE b
AS SELECT FROM a (well under 1000 statements), the standard branch
reports external dependency a while the forced large-batch branch reports
none, because the large-batch pass never accumulates the references of
CREATE statements into the aggregate referenced set. -/
theorem largeBatch_differs_from_standard :
    [c2Stmt1].length ≤ 1000 ∧
    (analyzeStandard sqlglotScenario [c2Stmt1]).external_dependencies = ["a"] ∧
    (analyzeLargeBatch sqlglotScenario [c2Stmt1]).external_dependencies = [] := by
  decide

/-- C4 (failing evaluation): the streaming splitter drops the statement
INSERT INTO t VALUES with a quoted semicolon entirely — the candidate cut
at the quoted semicolon fails the boundary check and its text is
discarded instead of being carried — while the character-scan splitter
returns the statement intact, so the two splitters do not apply the same
boundary treatment and statement text is lost. -/
theorem streamSplit_drops_quoted_statement :
    streamSplitQueries "INSERT INTO t VALUES ('a;b');" = [] ∧
    splitWithRegex "INSERT INTO t VALUES ('a;b');" = ["INSERT INTO t VALUES ('a;b');"] := by
  decide

/-- C8: on the two-cycle graph the sorter returns a two-element order
containing both nodes and reports both as cyclic, without failing; in
general every key of any graph (with distinct keys) appears in the
returned order, unresolved nodes being appended rather than dropped. -/
theorem cycle_tolerance :
    (topologicalSortFull [("a", ["b"]), ("b", ["a"])]).1 = ["a", "b"] ∧
    (topologicalSortFull [("a", ["b"]), ("b", ["a"])]).2 = ["a", "b"] ∧
    ∀ g : Graph, (keysOf g).Nodup → ∀ x ∈ keysOf g, x ∈ topologicalSort g := by
  refine ⟨by decide, by decide, ?_⟩
  intro g hg x hx
  exact (topologicalSort_perm g hg).mem_iff.mpr hx

/-- Witness for C8: completeness applied to a concrete one-node graph. -/
theorem cycle_tolerance_witness : "a" ∈ topologicalSort [("a", [])] :=
  cycle_tolerance.2.2 [("a", [])] (by decide) "a" (by decide)

/-- C10: for every dependency graph with distinct keys, cyclic or not,
the returned order is a permutation of the key list — no key is
duplicated and none is dropped. -/
theorem topologicalSort_permutation (g : Graph) (h : (keysOf g).Nodup) :
    (topologicalSort g).Perm (keysOf g) :=
  topologicalSort_perm g h

/-- Witness for C10 at a concrete two-node graph. -/
theorem topologicalSort_permutation_witness :
    (topologicalSort [("x", ["y"]), ("y", [])]).Perm ["x", "y"] :=
  topologicalSort_permutation [("x", ["y"]), ("y", [])] (by decide)

end SqlDep
